import Mathlib

/-!
Shallow embedding of the Stockfish engine transport / command-queue layer
(`StockfishEngine` in `src/lib/chess-utils.js`).

The transport owns a worker channel, a FIFO queue of in-flight UCI commands,
two flags (`loaded`, `ready`), and an optional global stream callback.  Lines
arriving from the channel are attributed to queued commands by UCI family
classification, appended to the attributed command's accumulated buffer, and
tested for completion.

Callbacks are modelled by identity tags plus an event trace: processing a
line returns the successor state together with the list of callback
invocations, in invocation order.

String primitives (`startsWith`, `trim`, `split`, `includes`) are given
structurally on the character list so that every definition evaluates by
kernel reduction; each is behaviorally the JS operation on the ASCII lines
the engine exchanges.
-/

namespace ChessUtils

/-- JS `String.prototype.startsWith`. -/
def strStartsWith (s pat : String) : Bool :=
  pat.data.isPrefixOf s.data

/-- JS whitespace for `trim` (the characters occurring in engine traffic). -/
def isWsChar (c : Char) : Bool :=
  c = ' ' || c = '\t' || c = '\n' || c = '\r'

/-- JS `String.prototype.trim`: strip whitespace from both ends. -/
def strTrim (s : String) : String :=
  String.mk (((s.data.dropWhile isWsChar).reverse.dropWhile isWsChar).reverse)

/-- JS `String.prototype.includes` for a single character. -/
def strContainsChar (s : String) (c : Char) : Bool :=
  s.data.contains c

/-- JS `String.prototype.split` with a single-character separator. -/
def splitOnChar (c : Char) : List Char → List (List Char)
  | [] => [[]]
  | x :: xs =>
    if x = c then [] :: splitOnChar c xs
    else
      match splitOnChar c xs with
      | r :: rs => (x :: r) :: rs
      | [] => [[x]]

/-- A queued UCI command (`{cmd, callback, stream, message}` pushed by
`send`, plus a `discard` flag read by `handleMessage`; `send` never sets it,
so it is `false` for every entry the code creates).  Callbacks are modelled
by presence flags and an identity tag used in the event trace. -/
structure Command where
  cmd : String
  hasCallback : Bool
  hasStream : Bool
  message : String
  discard : Bool
  id : Nat
  deriving DecidableEq, Repr

/-- Transport state: worker handle (alive or terminated), command queue,
`loaded`/`ready` flags, and whether a global stream callback is set. -/
structure EngineState where
  workerAlive : Bool
  commandQueue : List Command
  loaded : Bool
  ready : Bool
  hasGlobalStream : Bool
  deriving DecidableEq, Repr

/-- One observable callback invocation. -/
inductive Event where
  | globalStream (line : String)
  | cmdStream (id : Nat) (line : String)
  | complete (id : Nat) (payload : String)
  deriving DecidableEq, Repr

/-- `getFirstWord`: substring up to the first space, or the whole line when
there is no space (JS `indexOf(' ')` / `substring`). -/
def getFirstWord (line : String) : String :=
  String.mk (line.data.takeWhile (fun c => !(c = ' ')))

/-- Family classification of a response line's leading token
(`determineQueueIndex`, lines 119-127). -/
def classifyFamily (line : String) : String :=
  if getFirstWord line = "uciok" ∨ getFirstWord line = "option" then "uci"
  else if getFirstWord line = "readyok" then "isready"
  else if getFirstWord line = "bestmove" ∨ getFirstWord line = "info" then "go"
  else "other"

/-- The `findIndex` predicate of `determineQueueIndex` (lines 129-133). -/
def matchesFamily (fam : String) (item : Command) : Bool :=
  decide (getFirstWord item.cmd = fam ∨
    (fam = "other" ∧ (getFirstWord item.cmd = "d" ∨ getFirstWord item.cmd = "eval")))

/-- `determineQueueIndex`.  Note the tail of the JS function is
`findIndex(...) || 0`: `findIndex` yields `-1` when nothing matches, and
`-1` is truthy in JS, so `|| 0` is the identity on every result (`0 || 0`
is `0`).  We therefore return the raw `findIndex` result, `-1` included. -/
def determineQueueIndex (s : EngineState) (line : String) : Int :=
  match s.commandQueue with
  | [] => 0
  | firstCommand :: _ =>
    if firstCommand.cmd = "bench" ∨ firstCommand.cmd = "perft" then 0
    else
      match s.commandQueue.findIdx? (matchesFamily (classifyFamily line)) with
      | some i => (i : Int)
      | none => -1

/-- The buffer append of `handleMessage` line 178:
`command.message = command.message ? `${command.message}\n${line}` : line`. -/
def appendLine (buffer line : String) : String :=
  if buffer = "" then line else buffer ++ "\n" ++ line

/-- The regex test `/Total Evaluation[\s\S]+\n$/.test(msg)`: the buffer ends
with a newline and contains an occurrence of `Total Evaluation` followed by
at least one character and that final newline (the literal is 16 characters,
so an occurrence at index `i` needs `i + 18 ≤ length`). -/
def evalRegexTest (s : String) : Bool :=
  (s.data.getLast? = some '\n') &&
  (List.range s.data.length).any (fun i =>
    ("Total Evaluation".data.isPrefixOf (s.data.drop i)) &&
      decide (i + 18 ≤ s.data.length))

/-- `isCommandComplete`: returns whether the command completed, the state
with any flag side effects (`loaded`/`ready`), and the command's message
(replaced by the single line in the `bestmove` branch). -/
def isCommandComplete (s : EngineState) (line : String) (c : Command) :
    Bool × EngineState × String :=
  if line = "uciok" then (true, {s with loaded := true}, c.message)
  else if line = "readyok" then (true, {s with ready := true}, c.message)
  else if strStartsWith line "bestmove" = true ∧ c.cmd ≠ "bench" then (true, s, line)
  else if c.cmd = "d" then
    (strStartsWith line "Legal uci moves" || strStartsWith line "Key is", s, c.message)
  else if c.cmd = "eval" then (evalRegexTest c.message, s, c.message)
  else
    (strStartsWith line "pawn key" || strStartsWith line "Nodes/second" ||
       strStartsWith line "Unknown command", s, c.message)

/-- The single-line path of `handleMessage` (lines 154-190): global stream,
system-message filtering, attribution, per-command stream, buffer append,
completion test, splice and completion callback. -/
def processLine (s : EngineState) (line : String) : EngineState × List Event :=
  let ev0 : List Event := if s.hasGlobalStream then [.globalStream line] else []
  if s.commandQueue.isEmpty || strStartsWith line "No such option" ||
      strStartsWith line "id " || strStartsWith line "Stockfish" then
    (s, ev0)
  else
    let qi := determineQueueIndex s line
    match (if qi < 0 then none else s.commandQueue.get? qi.toNat) with
    | none => (s, ev0)
    | some command =>
      let ev1 := ev0 ++ (if command.hasStream then [.cmdStream command.id line] else [])
      let c1 : Command := {command with message := appendLine command.message line}
      let r := isCommandComplete s line c1
      if r.1 then
        let s2 := {r.2.1 with commandQueue := r.2.1.commandQueue.eraseIdx qi.toNat}
        (s2, ev1 ++ (if command.hasCallback && !command.discard then
                       [.complete command.id r.2.2] else []))
      else
        let s2 := {r.2.1 with
                     commandQueue := r.2.1.commandQueue.set qi.toNat {c1 with message := r.2.2}}
        (s2, ev1)

/-- Process a list of line-arrival events in order, threading the state and
concatenating the traces (the order in which JS `forEach` dispatches the
sub-lines and the worker delivers messages). -/
def processLines (s : EngineState) : List String → EngineState × List Event
  | [] => (s, [])
  | l :: ls =>
    let r := processLine s l
    let r2 := processLines r.1 ls
    (r2.1, r.2 ++ r2.2)

/-- Multi-line payload entry point of `handleMessage` (lines 143-152): a
payload with an embedded newline is split and each sub-line with non-blank
trim is re-dispatched, in order; sub-lines contain no newline, so the
recursive `handleMessage` call is exactly the single-line path. -/
def handleMessage (s : EngineState) (payload : String) : EngineState × List Event :=
  if strContainsChar payload '\n' then
    processLines s
      (((splitOnChar '\n' payload.data).map (fun l => String.mk l)).filter
        (fun l => !(strTrim l = "")))
  else
    processLine s payload

/-- The fixed set of fire-and-forget command texts in `send`. -/
def immediateCommands : List String := ["ucinewgame", "flip", "stop", "ponderhit"]

/-- The `needsQueue` test of `send` (lines 263-265), on the trimmed text. -/
def needsQueue (cmd : String) : Bool :=
  !(immediateCommands.contains cmd) && !(strStartsWith cmd "position") &&
    !(strStartsWith cmd "setoption")

/-- Outcome of a `send` call: successor state, the text posted to the
channel (`none` when nothing was posted), and whether the call threw
(`this.worker.postMessage` on a null worker). -/
structure SendOutcome where
  state : EngineState
  posted : Option String
  threw : Bool
  deriving DecidableEq, Repr

/-- `send(command, callback, stream)` (lines 255-277): trim, push a queue
entry when the command is queue-tracked, then post to the worker.  The push
happens before the post, so a terminated (null) worker makes the call throw
after the entry was already appended. -/
def send (s : EngineState) (command : String) (hasCallback hasStream : Bool)
    (id : Nat) : SendOutcome :=
  let cmd := strTrim command
  let s1 :=
    if needsQueue cmd then
      {s with commandQueue :=
        s.commandQueue ++ [⟨cmd, hasCallback, hasStream, "", false, id⟩]}
    else s
  if s1.workerAlive then ⟨s1, some cmd, false⟩ else ⟨s1, none, true⟩

/-- `quit()` (lines 289-296): when the worker is alive, terminate it and
clear the flags.  The command queue is left untouched. -/
def quit (s : EngineState) : EngineState :=
  if s.workerAlive then {s with workerAlive := false, ready := false, loaded := false}
  else s

/-- A freshly constructed engine: live worker, empty queue, flags down. -/
def initState : EngineState :=
  { workerAlive := true, commandQueue := [], loaded := false, ready := false,
    hasGlobalStream := false }

/-- A state with one queued `go` command, used by concrete scenarios. -/
def demoGoState : EngineState :=
  { initState with commandQueue := [⟨"go depth 10", true, true, "", false, 0⟩] }

/-! ### Helper lemmas -/

/-- `isCommandComplete` only touches the `loaded`/`ready` flags: the queue of
the returned state is the input queue. -/
theorem isCommandComplete_queue (s : EngineState) (line : String) (c : Command) :
    (isCommandComplete s line c).2.1.commandQueue = s.commandQueue := by
  unfold isCommandComplete
  repeat' split
  all_goals rfl

/-- `isCommandComplete` preserves the global-stream flag. -/
theorem isCommandComplete_hasGlobalStream (s : EngineState) (line : String) (c : Command) :
    (isCommandComplete s line c).2.1.hasGlobalStream = s.hasGlobalStream := by
  unfold isCommandComplete
  repeat' split
  all_goals rfl

/-- `isCommandComplete` preserves the worker handle. -/
theorem isCommandComplete_workerAlive (s : EngineState) (line : String) (c : Command) :
    (isCommandComplete s line c).2.1.workerAlive = s.workerAlive := by
  unfold isCommandComplete
  repeat' split
  all_goals rfl

/-- The queuing test of `send`, phrased as the spec's explicit list. -/
theorem needsQueue_eq_false_iff (cmd : String) :
    needsQueue cmd = false ↔
      (cmd = "ucinewgame" ∨ cmd = "flip" ∨ cmd = "stop" ∨ cmd = "ponderhit" ∨
       strStartsWith cmd "position" = true ∨ strStartsWith cmd "setoption" = true) := by
  simp only [needsQueue, immediateCommands, Bool.and_eq_false_iff, Bool.not_eq_false',
    Bool.not_eq_true', List.elem_iff, List.mem_cons,
    List.mem_singleton, List.not_mem_nil, or_false]
  tauto

/-! ### Claims -/

/-- C10: when the command queue is empty and a line equal to `uciok` or
`readyok` arrives, the line is delivered to the global stream callback (if
set) and then dropped: the whole state — in particular the `loaded` and
`ready` flags — is unchanged, because the flag-setting side effects live
inside the completion test, which is reached only for lines attributed to a
queued command. -/
theorem c10_empty_queue_drops_handshake_lines (s : EngineState) (line : String)
    (hq : s.commandQueue = []) (hl : line = "uciok" ∨ line = "readyok") :
    processLine s line =
      (s, if s.hasGlobalStream then [Event.globalStream line] else []) := by
  cases hl <;> simp [processLine, hq]

/-- Witness for C10 at a concrete state and the line `uciok`. -/
theorem c10_witness :
    ({ initState with hasGlobalStream := true } : EngineState).commandQueue = [] ∧
    processLine { initState with hasGlobalStream := true } "uciok" =
      ({ initState with hasGlobalStream := true },
       if ({ initState with hasGlobalStream := true } : EngineState).hasGlobalStream then
         [Event.globalStream "uciok"] else []) :=
  ⟨rfl, c10_empty_queue_drops_handshake_lines _ "uciok" rfl (Or.inl rfl)⟩

/-- C7 counterexample: `quit()` does not drop the command queue.  On a state
with one pending queued command, the queue after `quit` is still non-empty
(the code only terminates the worker and clears the two flags; it never
touches `commandQueue`). -/
theorem c7_counterexample : (quit demoGoState).commandQueue ≠ [] := by decide

/-- C7 (amended): `quit()` on a live engine terminates the channel and sets
both the `loaded` and `ready` flags to false, but leaves the command queue
exactly as it was: pending commands stay queued (they are abandoned only in
the sense that the terminated channel will deliver no further lines, and
`quit` itself fires no callback). -/
theorem c7_quit_terminates_but_keeps_queue (s : EngineState)
    (halive : s.workerAlive = true) :
    (quit s).workerAlive = false ∧ (quit s).loaded = false ∧
    (quit s).ready = false ∧ (quit s).commandQueue = s.commandQueue := by
  simp [quit, halive]

/-- Witness for C7's amended theorem at a concrete state. -/
theorem c7_witness :
    demoGoState.workerAlive = true ∧
    ((quit demoGoState).workerAlive = false ∧ (quit demoGoState).loaded = false ∧
     (quit demoGoState).ready = false ∧
     (quit demoGoState).commandQueue = demoGoState.commandQueue) :=
  ⟨rfl, c7_quit_terminates_but_keeps_queue demoGoState rfl⟩

/-- C2 counterexample: `send` after `quit` does not leave the state
unchanged.  For the queue-tracked command `go depth 10`, the entry is pushed
onto the command queue before `this.worker.postMessage` dereferences the
null worker, so the queue grows even though the call fails. -/
theorem c2_counterexample :
    (send (quit initState) "go depth 10" true false 0).state.commandQueue ≠
      (quit initState).commandQueue := by decide

/-- C2 (amended): after `quit()`, every `send` fails (the worker is null, so
posting throws) and nothing is posted to the channel; but the state is not
untouched: a queue-tracked command text still appends exactly one entry to
the command queue before the failure, while an immediate command appends
nothing. -/
theorem c2_send_after_quit (s : EngineState) (command : String)
    (hc hs : Bool) (i : Nat) (hdead : s.workerAlive = false) :
    (send s command hc hs i).threw = true ∧
    (send s command hc hs i).posted = none ∧
    (send s command hc hs i).state.commandQueue =
      (if needsQueue (strTrim command) then
        s.commandQueue ++ [⟨strTrim command, hc, hs, "", false, i⟩]
       else s.commandQueue) := by
  by_cases hnq : needsQueue (strTrim command) <;> simp [send, hnq, hdead]

/-- Witness for C2's amended theorem: `go depth 10` sent after `quit`. -/
theorem c2_witness :
    (quit initState).workerAlive = false ∧
    ((send (quit initState) "go depth 10" true false 0).threw = true ∧
     (send (quit initState) "go depth 10" true false 0).posted = none ∧
     (send (quit initState) "go depth 10" true false 0).state.commandQueue =
       (if needsQueue (strTrim "go depth 10") then
         (quit initState).commandQueue ++ [⟨strTrim "go depth 10", true, false, "", false, 0⟩]
        else (quit initState).commandQueue)) :=
  ⟨rfl, c2_send_after_quit (quit initState) "go depth 10" true false 0 rfl⟩

/-- C1: the head-of-queue fallback for unmatched lines never happens.  With
one queued `go` command, the line `Unknown command: xyzzy` classifies as
family `other`; no queued command's leading token matches (`go` is neither
`other` nor `d`/`eval`), so `findIndex` yields `-1`, which is truthy in JS,
so `|| 0` leaves it as `-1`; `commandQueue[-1]` is undefined and the handler
returns.  The line is dropped — not appended to the head command's buffer
and not delivered to its stream callback, contradicting the documented
fallback to index 0. -/
theorem c1_unmatched_line_dropped_not_head_attributed :
    determineQueueIndex demoGoState "Unknown command: xyzzy" = -1 ∧
    processLine demoGoState "Unknown command: xyzzy" = (demoGoState, []) := by decide

/-- C5: a command whose trimmed text is exactly one of `ucinewgame`, `flip`,
`stop`, `ponderhit`, or begins with `position` or `setoption`, is sent with
no queue entry at all — the state is untouched, so the `onComplete` callback
handed to `send` is never stored and can never be invoked; every other
command appends exactly one entry (with empty accumulated buffer) to the
tail of the queue; in both cases the exact trimmed text is posted to the
channel. -/
theorem c5_send_queue_rule (s : EngineState) (command : String)
    (hc hs : Bool) (i : Nat) (halive : s.workerAlive = true) :
    ((strTrim command = "ucinewgame" ∨ strTrim command = "flip" ∨
      strTrim command = "stop" ∨ strTrim command = "ponderhit" ∨
      strStartsWith (strTrim command) "position" = true ∨
      strStartsWith (strTrim command) "setoption" = true) →
      (send s command hc hs i).state = s ∧
      (send s command hc hs i).posted = some (strTrim command)) ∧
    (¬(strTrim command = "ucinewgame" ∨ strTrim command = "flip" ∨
       strTrim command = "stop" ∨ strTrim command = "ponderhit" ∨
       strStartsWith (strTrim command) "position" = true ∨
       strStartsWith (strTrim command) "setoption" = true) →
      (send s command hc hs i).state.commandQueue =
        s.commandQueue ++ [⟨strTrim command, hc, hs, "", false, i⟩] ∧
      (send s command hc hs i).posted = some (strTrim command)) := by
  constructor
  · intro h
    have hnq : needsQueue (strTrim command) = false := (needsQueue_eq_false_iff _).2 h
    simp [send, hnq, halive]
  · intro h
    have hnq : ¬ needsQueue (strTrim command) = false :=
      fun hf => h ((needsQueue_eq_false_iff _).1 hf)
    rw [Bool.not_eq_false] at hnq
    simp [send, hnq, halive]

/-- Witness for C5: an immediate command (`position startpos`) and a queued
command (`go depth 10`) sent on a fresh engine. -/
theorem c5_witness :
    initState.workerAlive = true ∧
    ((send initState "position startpos" true false 0).state = initState ∧
     (send initState "position startpos" true false 0).posted =
       some (strTrim "position startpos")) ∧
    ((send initState "go depth 10" true false 1).state.commandQueue =
       initState.commandQueue ++ [⟨strTrim "go depth 10", true, false, "", false, 1⟩] ∧
     (send initState "go depth 10" true false 1).posted = some (strTrim "go depth 10")) :=
  ⟨rfl,
   (c5_send_queue_rule initState "position startpos" true false 0 rfl).1
     (by right; right; right; right; left; decide),
   (c5_send_queue_rule initState "go depth 10" true false 1 rfl).2 (by decide)⟩

/-- C9: processing one arriving line mutates at most the single attributed
command.  The successor queue is the original queue, or the original queue
with exactly one entry replaced by a copy differing only in its accumulated
buffer (text, callbacks, discard flag and identity preserved, order
untouched), or the original queue with exactly one entry removed. -/
theorem c9_line_arrival_frame (s : EngineState) (line : String) :
    (processLine s line).1.commandQueue = s.commandQueue ∨
    (∃ i c c', s.commandQueue[i]? = some c ∧
      (processLine s line).1.commandQueue = s.commandQueue.set i c' ∧
      c'.cmd = c.cmd ∧ c'.hasCallback = c.hasCallback ∧ c'.hasStream = c.hasStream ∧
      c'.discard = c.discard ∧ c'.id = c.id) ∨
    (∃ i, (processLine s line).1.commandQueue = s.commandQueue.eraseIdx i) := by
  by_cases hf : (s.commandQueue.isEmpty || strStartsWith line "No such option" ||
      strStartsWith line "id " || strStartsWith line "Stockfish") = true
  · left; simp [processLine, hf]
  · rw [Bool.not_eq_true] at hf
    rcases hcmd : (if determineQueueIndex s line < 0 then none
        else s.commandQueue[(determineQueueIndex s line).toNat]?) with _ | command
    · left; simp [processLine, hf, hcmd]
    · have hget : s.commandQueue[(determineQueueIndex s line).toNat]? = some command := by
        by_cases hlt : determineQueueIndex s line < 0
        · rw [if_pos hlt] at hcmd; exact absurd hcmd (by simp)
        · rwa [if_neg hlt] at hcmd
      by_cases hcomp : (isCommandComplete s line
          {command with message := appendLine command.message line}).1 = true
      · right; right
        refine ⟨(determineQueueIndex s line).toNat, ?_⟩
        simp [processLine, hf, hcmd, hcomp, isCommandComplete_queue]
      · right; left
        rw [Bool.not_eq_true] at hcomp
        refine ⟨(determineQueueIndex s line).toNat, command,
          {command with message := (isCommandComplete s line
            {command with message := appendLine command.message line}).2.2},
          hget, ?_, rfl, rfl, rfl, rfl, rfl⟩
        simp [processLine, hf, hcmd, hcomp, isCommandComplete_queue]

/-- A state with one queued `eval` command whose buffer already holds the
`Total Evaluation` block, used by concrete scenarios. -/
def demoEvalCmd : Command :=
  ⟨"eval", true, false, "Total Evaluation: 0.3 (white side)", false, 3⟩

/-- The engine state holding just `demoEvalCmd`. -/
def demoEvalState : EngineState := { initState with commandQueue := [demoEvalCmd] }

/-- C3: for a queued command whose text is exactly `eval`, an attributed line
that is not `uciok`, `readyok` or a `bestmove` line (family `other`, the only
family attributed to an `eval` command, by hypothesis not starting with
`bestmove` and not filtered as a system message) completes the command if and
only if the accumulated buffer after the line is appended passes the
trailing-block test `/Total Evaluation[\s\S]+\n$/`: on success the command is
removed from the head of the queue and its callback receives the appended
buffer, otherwise it stays queued with the appended buffer. -/
theorem c3_eval_completion (s : EngineState) (c : Command) (rest : List Command)
    (line : String)
    (hq : s.commandQueue = c :: rest)
    (hcmd : c.cmd = "eval")
    (hfam : classifyFamily line = "other")
    (hf1 : strStartsWith line "No such option" = false)
    (hf2 : strStartsWith line "id " = false)
    (hf3 : strStartsWith line "Stockfish" = false)
    (hnb : strStartsWith line "bestmove" = false) :
    (evalRegexTest (appendLine c.message line) = true →
      (processLine s line).1.commandQueue = rest ∧
      (processLine s line).2 =
        (if s.hasGlobalStream then [Event.globalStream line] else []) ++
        (if c.hasStream then [Event.cmdStream c.id line] else []) ++
        (if c.hasCallback && !c.discard then
          [Event.complete c.id (appendLine c.message line)] else [])) ∧
    (evalRegexTest (appendLine c.message line) = false →
      (processLine s line).1.commandQueue =
        {c with message := appendLine c.message line} :: rest ∧
      (processLine s line).2 =
        (if s.hasGlobalStream then [Event.globalStream line] else []) ++
        (if c.hasStream then [Event.cmdStream c.id line] else [])) := by
  have hu : line ≠ "uciok" := by
    intro h; rw [h] at hfam; exact absurd hfam (by decide)
  have hr : line ≠ "readyok" := by
    intro h; rw [h] at hfam; exact absurd hfam (by decide)
  have hm : matchesFamily "other" c = true := by
    simp [matchesFamily, hcmd, getFirstWord]
  have hqi : determineQueueIndex s line = 0 := by
    simp [determineQueueIndex, hq, hcmd, hfam, List.findIdx?_cons, hm]
  have hcomp : isCommandComplete s line {c with message := appendLine c.message line} =
      (evalRegexTest (appendLine c.message line), s, appendLine c.message line) := by
    simp [isCommandComplete, hu, hr, hnb, hcmd]
  constructor
  · intro hev
    simp [processLine, hq, hf1, hf2, hf3, hqi, hcomp, hev]
  · intro hev
    simp [processLine, hq, hf1, hf2, hf3, hqi, hcomp, hev]

/-- Witness for C3: the empty line delivered after the `Total Evaluation`
block gives the buffer its trailing newline, so the `eval` command completes
with the full buffer as payload. -/
theorem c3_witness :
    (processLine demoEvalState "").1.commandQueue = [] ∧
    (processLine demoEvalState "").2 =
      [Event.complete 3 "Total Evaluation: 0.3 (white side)\n"] := by
  have h := c3_eval_completion demoEvalState demoEvalCmd [] "" rfl rfl
    (by decide) (by decide) (by decide) (by decide) (by decide)
  have h2 := h.1 (by decide)
  exact ⟨h2.1, by rw [h2.2]; decide⟩

/-- A separator-free list splits to itself. -/
theorem splitOnChar_of_not_contains (c : Char) (l : List Char)
    (h : l.contains c = false) : splitOnChar c l = [l] := by
  induction l with
  | nil => rfl
  | cons x xs ih =>
    rw [List.contains_cons, Bool.or_eq_false_iff] at h
    have hxc : ¬ x = c := by
      have hb := h.1
      simp only [beq_eq_false_iff_ne, ne_eq] at hb
      exact fun hx => hb hx.symm
    rw [splitOnChar, if_neg hxc, ih h.2]

/-- Splitting peels off a separator-free prefix before the separator. -/
theorem splitOnChar_append (c : Char) (a b : List Char)
    (ha : a.contains c = false) :
    splitOnChar c (a ++ c :: b) = a :: splitOnChar c b := by
  induction a with
  | nil => simp [splitOnChar]
  | cons x xs ih =>
    rw [List.contains_cons, Bool.or_eq_false_iff] at ha
    have hxc : ¬ x = c := by
      have hb := ha.1
      simp only [beq_eq_false_iff_ne, ne_eq] at hb
      exact fun hx => hb hx.symm
    rw [List.cons_append, splitOnChar, if_neg hxc, ih ha.2]

/-- C8: a raw payload made of two newline-joined sub-lines is processed as
two independent line-arrival events in payload order; a sub-line that is
blank after trimming is skipped entirely — it is not even delivered to the
global stream — and when both sub-lines are blank the payload has no effect
and produces no event at all. -/
theorem c8_multiline_payload_split (s : EngineState) (a b : List Char)
    (ha : a.contains '\n' = false) (hb : b.contains '\n' = false) :
    (strTrim (String.mk a) ≠ "" → strTrim (String.mk b) ≠ "" →
      handleMessage s (String.mk (a ++ '\n' :: b)) =
        ((processLine (processLine s (String.mk a)).1 (String.mk b)).1,
         (processLine s (String.mk a)).2 ++
           (processLine (processLine s (String.mk a)).1 (String.mk b)).2)) ∧
    (strTrim (String.mk a) ≠ "" → strTrim (String.mk b) = "" →
      handleMessage s (String.mk (a ++ '\n' :: b)) = processLine s (String.mk a)) ∧
    (strTrim (String.mk a) = "" → strTrim (String.mk b) ≠ "" →
      handleMessage s (String.mk (a ++ '\n' :: b)) = processLine s (String.mk b)) ∧
    (strTrim (String.mk a) = "" → strTrim (String.mk b) = "" →
      handleMessage s (String.mk (a ++ '\n' :: b)) = (s, [])) := by
  have hcontains : strContainsChar (String.mk (a ++ '\n' :: b)) '\n' = true := by
    simp [strContainsChar, List.elem_iff]
  have hsplit : splitOnChar '\n' (String.mk (a ++ '\n' :: b)).data = [a, b] := by
    show splitOnChar '\n' (a ++ '\n' :: b) = [a, b]
    rw [splitOnChar_append _ _ _ ha, splitOnChar_of_not_contains _ _ hb]
  refine ⟨fun h1 h2 => ?_, fun h1 h2 => ?_, fun h1 h2 => ?_, fun h1 h2 => ?_⟩ <;>
    simp [handleMessage, hcontains, hsplit, h1, h2, processLines]

/-- Witness for C8: an `info` line and a `bestmove` line arriving as one
newline-joined payload behave as the two separate line events. -/
theorem c8_witness :
    handleMessage demoGoState "info depth 1\nbestmove e2e4" =
      ((processLine (processLine demoGoState "info depth 1").1 "bestmove e2e4").1,
       (processLine demoGoState "info depth 1").2 ++
         (processLine (processLine demoGoState "info depth 1").1 "bestmove e2e4").2) := by
  have h := (c8_multiline_payload_split demoGoState "info depth 1".data
    "bestmove e2e4".data (by decide) (by decide)).1 (by decide) (by decide)
  have hpay : String.mk ("info depth 1".data ++ '\n' :: "bestmove e2e4".data) =
      "info depth 1\nbestmove e2e4" := by decide
  have hma : String.mk ("info depth 1".data) = "info depth 1" := by decide
  have hmb : String.mk ("bestmove e2e4".data) = "bestmove e2e4" := by decide
  rw [hpay, hma, hmb] at h
  exact h

/-! ### Word analysis and go-family step lemmas -/

theorem takeWhile_append_of_all (q : Char → Bool) (p t : List Char)
    (h : ∀ x ∈ p, q x = true) :
    (p ++ t).takeWhile q = p ++ t.takeWhile q := by
  induction p with
  | nil => simp
  | cons x xs ih =>
    rw [List.cons_append, List.takeWhile_cons, if_pos (h x (List.mem_cons_self x xs)),
      ih (fun y hy => h y (List.mem_cons_of_mem x hy)), List.cons_append]

theorem getFirstWord_break (l : String) (p1 p2 : List Char)
    (hp1 : ∀ x ∈ p1, (!(x = ' ')) = true)
    (h : strStartsWith l (String.mk (p1 ++ ' ' :: p2)) = true) :
    getFirstWord l = String.mk p1 := by
  rw [strStartsWith, List.isPrefixOf_iff_prefix] at h
  obtain ⟨t, ht⟩ := h
  show String.mk (l.data.takeWhile _) = String.mk p1
  rw [← ht]
  show String.mk (((p1 ++ ' ' :: p2) ++ t).takeWhile (fun c => !(c = ' '))) = String.mk p1
  rw [List.append_assoc, List.cons_append, takeWhile_append_of_all _ _ _ hp1,
    List.takeWhile_cons]
  simp

theorem getFirstWord_nospace_prefix (l p : String)
    (hp : ∀ x ∈ p.data, (!(x = ' ')) = true)
    (h : strStartsWith l p = true) :
    strStartsWith (getFirstWord l) p = true := by
  rw [strStartsWith, List.isPrefixOf_iff_prefix] at h
  obtain ⟨t, ht⟩ := h
  rw [strStartsWith, List.isPrefixOf_iff_prefix]
  show p.data <+: (l.data.takeWhile _)
  rw [← ht, takeWhile_append_of_all _ _ _ hp]
  exact List.prefix_append _ _

theorem startsWith_getFirstWord (l : String) :
    strStartsWith l (getFirstWord l) = true := by
  rw [strStartsWith, List.isPrefixOf_iff_prefix]
  exact List.takeWhile_prefix _

theorem classifyFamily_eq_go_iff (l : String) :
    classifyFamily l = "go" ↔
      (getFirstWord l = "bestmove" ∨ getFirstWord l = "info") := by
  unfold classifyFamily
  split_ifs with h1 h2 h3
  · constructor
    · intro h; exact absurd h (by decide)
    · intro h; exfalso
      rcases h1 with h1 | h1 <;> rcases h with h | h <;> rw [h1] at h <;>
        exact absurd h (by decide)
  · constructor
    · intro h; exact absurd h (by decide)
    · intro h; exfalso
      rcases h with h | h <;> rw [h2] at h <;> exact absurd h (by decide)
  · simp [h3]
  · constructor
    · intro h; exact absurd h (by decide)
    · intro h; exact absurd h h3

theorem processLine_filtered (s : EngineState) (l : String)
    (hgs : s.hasGlobalStream = false)
    (hfil : (s.commandQueue.isEmpty || strStartsWith l "No such option" ||
      strStartsWith l "id " || strStartsWith l "Stockfish") = true) :
    processLine s l = (s, []) := by
  simp [processLine, hfil, hgs]

theorem matchesFamily_go_cmd_false (fam : String) (x : Command)
    (hx : getFirstWord x.cmd = "go") (hfam : fam ≠ "go") :
    matchesFamily fam x = false := by
  simp [matchesFamily, hx]
  exact fun h => absurd h.symm hfam

theorem processLine_go_nonmatch (s : EngineState) (c : Command) (rest : List Command)
    (l : String)
    (hq : s.commandQueue = c :: rest) (hgs : s.hasGlobalStream = false)
    (hg : getFirstWord c.cmd = "go")
    (hrest : ∀ x ∈ rest, getFirstWord x.cmd = "go")
    (hfam : classifyFamily l ≠ "go")
    (hf1 : strStartsWith l "No such option" = false)
    (hf2 : strStartsWith l "id " = false)
    (hf3 : strStartsWith l "Stockfish" = false) :
    processLine s l = (s, []) := by
  have hbench : c.cmd ≠ "bench" := fun h => by rw [h] at hg; exact absurd hg (by decide)
  have hperft : c.cmd ≠ "perft" := fun h => by rw [h] at hg; exact absurd hg (by decide)
  have hnone : (c :: rest).findIdx? (matchesFamily (classifyFamily l)) = none := by
    rw [List.findIdx?_eq_none_iff]
    intro x hx
    rcases List.mem_cons.1 hx with h | h
    · subst h; exact matchesFamily_go_cmd_false _ _ hg hfam
    · exact matchesFamily_go_cmd_false _ _ (hrest x h) hfam
  have hqi : determineQueueIndex s l = -1 := by
    simp [determineQueueIndex, hq, hbench, hperft, hnone]
  simp [processLine, hq, hf1, hf2, hf3, hqi, hgs]

theorem processLine_go_info (s : EngineState) (c : Command) (rest : List Command)
    (l : String)
    (hq : s.commandQueue = c :: rest) (hgs : s.hasGlobalStream = false)
    (hg : getFirstWord c.cmd = "go")
    (hw : getFirstWord l = "info")
    (hf1 : strStartsWith l "No such option" = false)
    (hf2 : strStartsWith l "id " = false)
    (hf3 : strStartsWith l "Stockfish" = false) :
    processLine s l =
      ({s with commandQueue := {c with message := appendLine c.message l} :: rest},
       if c.hasStream then [Event.cmdStream c.id l] else []) := by
  have hbench : c.cmd ≠ "bench" := fun h => by rw [h] at hg; exact absurd hg (by decide)
  have hperft : c.cmd ≠ "perft" := fun h => by rw [h] at hg; exact absurd hg (by decide)
  have hd : c.cmd ≠ "d" := fun h => by rw [h] at hg; exact absurd hg (by decide)
  have he : c.cmd ≠ "eval" := fun h => by rw [h] at hg; exact absurd hg (by decide)
  have hb : strStartsWith l "bestmove" = false := by
    cases hsw : strStartsWith l "bestmove"
    · rfl
    · have h2 := getFirstWord_nospace_prefix l "bestmove" (by decide) hsw
      rw [hw] at h2; exact absurd h2 (by decide)
  have hpk : strStartsWith l "pawn key" = false := by
    cases hsw : strStartsWith l "pawn key"
    · rfl
    · have h2 : strStartsWith l (String.mk ("pawn".data ++ ' ' :: "key".data)) = true := by
        have h3 : String.mk ("pawn".data ++ ' ' :: "key".data) = "pawn key" := by decide
        rw [h3]; exact hsw
      have h4 := getFirstWord_break l "pawn".data "key".data (by decide) h2
      rw [hw] at h4; exact absurd h4 (by decide)
  have hns : strStartsWith l "Nodes/second" = false := by
    cases hsw : strStartsWith l "Nodes/second"
    · rfl
    · have h2 := getFirstWord_nospace_prefix l "Nodes/second" (by decide) hsw
      rw [hw] at h2; exact absurd h2 (by decide)
  have huc : strStartsWith l "Unknown command" = false := by
    cases hsw : strStartsWith l "Unknown command"
    · rfl
    · have h2 : strStartsWith l (String.mk ("Unknown".data ++ ' ' :: "command".data)) = true := by
        have h3 : String.mk ("Unknown".data ++ ' ' :: "command".data) = "Unknown command" := by
          decide
        rw [h3]; exact hsw
      have h4 := getFirstWord_break l "Unknown".data "command".data (by decide) h2
      rw [hw] at h4; exact absurd h4 (by decide)
  have hu : l ≠ "uciok" := fun h => by rw [h] at hw; exact absurd hw (by decide)
  have hrd : l ≠ "readyok" := fun h => by rw [h] at hw; exact absurd hw (by decide)
  have hfam : classifyFamily l = "go" := (classifyFamily_eq_go_iff l).2 (Or.inr hw)
  have hm : matchesFamily (classifyFamily l) c = true := by
    rw [hfam]; simp [matchesFamily, hg]
  have hqi : determineQueueIndex s l = 0 := by
    simp [determineQueueIndex, hq, hbench, hperft, List.findIdx?_cons, hm]
  have hcomp : isCommandComplete s l {c with message := appendLine c.message l} =
      (false, s, appendLine c.message l) := by
    simp [isCommandComplete, hu, hrd, hb, hd, he, hpk, hns, huc]
  simp [processLine, hq, hf1, hf2, hf3, hqi, hcomp, hgs]

theorem processLine_go_bestmove (s : EngineState) (c : Command) (rest : List Command)
    (l : String)
    (hq : s.commandQueue = c :: rest) (hgs : s.hasGlobalStream = false)
    (hg : getFirstWord c.cmd = "go")
    (hw : getFirstWord l = "bestmove")
    (hf1 : strStartsWith l "No such option" = false)
    (hf2 : strStartsWith l "id " = false)
    (hf3 : strStartsWith l "Stockfish" = false) :
    processLine s l =
      ({s with commandQueue := rest},
       (if c.hasStream then [Event.cmdStream c.id l] else []) ++
       (if c.hasCallback && !c.discard then [Event.complete c.id l] else [])) := by
  have hbench : c.cmd ≠ "bench" := fun h => by rw [h] at hg; exact absurd hg (by decide)
  have hperft : c.cmd ≠ "perft" := fun h => by rw [h] at hg; exact absurd hg (by decide)
  have hu : l ≠ "uciok" := fun h => by rw [h] at hw; exact absurd hw (by decide)
  have hrd : l ≠ "readyok" := fun h => by rw [h] at hw; exact absurd hw (by decide)
  have hb : strStartsWith l "bestmove" = true := by
    have h2 := startsWith_getFirstWord l; rw [hw] at h2; exact h2
  have hfam : classifyFamily l = "go" := (classifyFamily_eq_go_iff l).2 (Or.inl hw)
  have hm : matchesFamily (classifyFamily l) c = true := by
    rw [hfam]; simp [matchesFamily, hg]
  have hqi : determineQueueIndex s l = 0 := by
    simp [determineQueueIndex, hq, hbench, hperft, List.findIdx?_cons, hm]
  have hcomp : isCommandComplete s l {c with message := appendLine c.message l} =
      (true, s, l) := by
    simp [isCommandComplete, hu, hrd, hb, hbench]
  simp [processLine, hq, hf1, hf2, hf3, hqi, hcomp, hgs]

theorem goQueue_step (s : EngineState) (c : Command) (rest : List Command) (l : String)
    (hq : s.commandQueue = c :: rest) (hgs : s.hasGlobalStream = false)
    (hg : getFirstWord c.cmd = "go")
    (hrest : ∀ x ∈ rest, getFirstWord x.cmd = "go") :
    (processLine s l = (s, [])) ∨
    (processLine s l =
      ({s with commandQueue := {c with message := appendLine c.message l} :: rest},
       if c.hasStream then [Event.cmdStream c.id l] else [])) ∨
    (strStartsWith l "bestmove" = true ∧
     processLine s l =
      ({s with commandQueue := rest},
       (if c.hasStream then [Event.cmdStream c.id l] else []) ++
       (if c.hasCallback && !c.discard then [Event.complete c.id l] else []))) := by
  by_cases hfil : (s.commandQueue.isEmpty || strStartsWith l "No such option" ||
      strStartsWith l "id " || strStartsWith l "Stockfish") = true
  · left; exact processLine_filtered s l hgs hfil
  · have hx := hfil
    rw [Bool.not_eq_true, Bool.or_eq_false_iff, Bool.or_eq_false_iff,
      Bool.or_eq_false_iff] at hx
    obtain ⟨⟨⟨hemp, hf1⟩, hf2⟩, hf3⟩ := hx
    by_cases hfam : classifyFamily l = "go"
    · rcases (classifyFamily_eq_go_iff l).1 hfam with hw | hw
      · right; right
        have hb := startsWith_getFirstWord l
        rw [hw] at hb
        exact ⟨hb, processLine_go_bestmove s c rest l hq hgs hg hw hf1 hf2 hf3⟩
      · right; left
        exact processLine_go_info s c rest l hq hgs hg hw hf1 hf2 hf3
    · left
      exact processLine_go_nonmatch s c rest l hq hgs hg hrest hfam hf1 hf2 hf3

theorem c4_aux (b : String)
    (hbw : getFirstWord b = "bestmove")
    (hbf1 : strStartsWith b "No such option" = false)
    (hbf2 : strStartsWith b "id " = false)
    (hbf3 : strStartsWith b "Stockfish" = false)
    (infos : List String)
    (hinfos : ∀ l ∈ infos, getFirstWord l = "info" ∧
      strStartsWith l "No such option" = false ∧ strStartsWith l "id " = false ∧
      strStartsWith l "Stockfish" = false) :
    ∀ (s : EngineState) (c : Command), s.commandQueue = [c] →
      s.hasGlobalStream = false → getFirstWord c.cmd = "go" →
      c.hasCallback = true → c.hasStream = true → c.discard = false →
      (processLines s (infos ++ [b])).2 =
        (infos.map (fun l => Event.cmdStream c.id l)) ++
          [Event.cmdStream c.id b, Event.complete c.id b] ∧
      (processLines s (infos ++ [b])).1.commandQueue = [] := by
  induction infos with
  | nil =>
    intro s c hq hgs hg hcb hcs hcd
    have hstep := processLine_go_bestmove s c [] b hq hgs hg hbw hbf1 hbf2 hbf3
    simp [processLines, hstep, hcb, hcs, hcd]
  | cons x xs ih =>
    intro s c hq hgs hg hcb hcs hcd
    obtain ⟨hw, h1, h2, h3⟩ := hinfos x (List.mem_cons_self x xs)
    have hstep := processLine_go_info s c [] x hq hgs hg hw h1 h2 h3
    have ih2 := ih (fun l hl => hinfos l (List.mem_cons_of_mem x hl))
      {s with commandQueue := [{c with message := appendLine c.message x}]}
      {c with message := appendLine c.message x} rfl hgs hg hcb hcs hcd
    have hcons : processLines s (x :: (xs ++ [b])) =
        ((processLines (processLine s x).1 (xs ++ [b])).1,
         (processLine s x).2 ++ (processLines (processLine s x).1 (xs ++ [b])).2) := rfl
    simp only [List.cons_append]
    rw [hcons, hstep]
    have hev : (if c.hasStream = true then [Event.cmdStream c.id x] else []) =
        [Event.cmdStream c.id x] := by rw [hcs]; rfl
    constructor
    · show (if c.hasStream = true then [Event.cmdStream c.id x] else []) ++ _ = _
      rw [hev, ih2.1]
      simp
    · exact ih2.2

theorem processLines_append (pre suf : List String) : ∀ s : EngineState,
    processLines s (pre ++ suf) =
      ((processLines (processLines s pre).1 suf).1,
       (processLines s pre).2 ++ (processLines (processLines s pre).1 suf).2) := by
  induction pre with
  | nil => intro s; simp [processLines]
  | cons x xs ih => intro s; simp [processLines, ih, List.append_assoc]

theorem c6_empty_trace (lines : List String) : ∀ s : EngineState,
    s.commandQueue = [] → s.hasGlobalStream = false →
    processLines s lines = (s, []) := by
  induction lines with
  | nil => intro s _ _; rfl
  | cons x xs ih =>
    intro s hq hgs
    have hstep : processLine s x = (s, []) :=
      processLine_filtered s x hgs (by simp [hq])
    simp [processLines, hstep, ih s hq hgs]

theorem c6_single_trace (lines : List String) : ∀ (s : EngineState) (c : Command),
    s.commandQueue = [c] → s.hasGlobalStream = false → getFirstWord c.cmd = "go" →
    ∀ i p, Event.complete i p ∈ (processLines s lines).2 →
      i = c.id ∧ strStartsWith p "bestmove" = true := by
  induction lines with
  | nil => intro s c _ _ _ i p h; simp [processLines] at h
  | cons x xs ih =>
    intro s c hq hgs hg i p hmem
    have hcons : processLines s (x :: xs) =
        ((processLines (processLine s x).1 xs).1,
         (processLine s x).2 ++ (processLines (processLine s x).1 xs).2) := rfl
    rw [hcons] at hmem
    rcases goQueue_step s c [] x hq hgs hg (by simp) with h1 | h2 | ⟨hb, h3⟩
    · have hfst : (processLine s x).1 = s := by rw [h1]
      have hsnd : (processLine s x).2 = [] := by rw [h1]
      rw [hfst, hsnd] at hmem
      simp only [List.nil_append] at hmem
      exact ih s c hq hgs hg i p hmem
    · have hfst : (processLine s x).1 =
          {s with commandQueue := [{c with message := appendLine c.message x}]} := by
        rw [h2]
      have hsnd : (processLine s x).2 =
          (if c.hasStream = true then [Event.cmdStream c.id x] else []) := by
        rw [h2]
      rw [hfst, hsnd] at hmem
      rcases List.mem_append.1 hmem with hin | hin
      · exfalso
        rcases Bool.eq_false_or_eq_true c.hasStream with hcs | hcs <;>
          simp [hcs] at hin
      · exact ih {s with commandQueue := [{c with message := appendLine c.message x}]}
          {c with message := appendLine c.message x} rfl hgs hg i p hin
    · have hfst : (processLine s x).1 = {s with commandQueue := ([] : List Command)} := by
        rw [h3]
      have hsnd : (processLine s x).2 =
          (if c.hasStream = true then [Event.cmdStream c.id x] else []) ++
          (if (c.hasCallback && !c.discard) = true then [Event.complete c.id x] else []) := by
        rw [h3]
      rw [hfst, hsnd] at hmem
      rcases List.mem_append.1 hmem with hin | hin
      · rcases List.mem_append.1 hin with hin2 | hin2
        · exfalso
          rcases Bool.eq_false_or_eq_true c.hasStream with hcs | hcs <;>
            simp [hcs] at hin2
        · rcases Bool.eq_false_or_eq_true (c.hasCallback && !c.discard) with hcc | hcc <;>
            simp [hcc] at hin2
          obtain ⟨hi, hp⟩ := hin2
          subst hi; subst hp
          exact ⟨rfl, hb⟩
      · have hempty := c6_empty_trace xs
          {s with commandQueue := ([] : List Command)} rfl hgs
        rw [hempty] at hin
        simp at hin

theorem c6_pair_trace (lines : List String) : ∀ (s : EngineState) (c1 c2 : Command),
    s.commandQueue = [c1, c2] → s.hasGlobalStream = false →
    getFirstWord c1.cmd = "go" → getFirstWord c2.cmd = "go" →
    c1.hasCallback = true → c1.discard = false →
    (∀ i p, Event.complete i p ∈ (processLines s lines).2 →
      strStartsWith p "bestmove" = true) ∧
    ((∃ p, Event.complete c2.id p ∈ (processLines s lines).2) →
      ∃ q, Event.complete c1.id q ∈ (processLines s lines).2) := by
  induction lines with
  | nil =>
    intro s c1 c2 _ _ _ _ _ _
    constructor
    · intro i p h; simp [processLines] at h
    · rintro ⟨p, hp⟩; simp [processLines] at hp
  | cons x xs ih =>
    intro s c1 c2 hq hgs hg1 hg2 hcb hd
    have hcons : processLines s (x :: xs) =
        ((processLines (processLine s x).1 xs).1,
         (processLine s x).2 ++ (processLines (processLine s x).1 xs).2) := rfl
    rcases goQueue_step s c1 [c2] x hq hgs hg1
        (by intro y hy; rw [List.mem_singleton] at hy; subst hy; exact hg2)
      with h1 | h2 | ⟨hb, h3⟩
    · have heq : processLines s (x :: xs) =
          ((processLines s xs).1, [] ++ (processLines s xs).2) := by
        rw [hcons, h1]
      rw [heq]
      simp only [List.nil_append]
      exact ih s c1 c2 hq hgs hg1 hg2 hcb hd
    · have heq : processLines s (x :: xs) =
          ((processLines {s with commandQueue :=
              [{c1 with message := appendLine c1.message x}, c2]} xs).1,
           (if c1.hasStream = true then [Event.cmdStream c1.id x] else []) ++
             (processLines {s with commandQueue :=
               [{c1 with message := appendLine c1.message x}, c2]} xs).2) := by
        rw [hcons, h2]
      rw [heq]
      dsimp only
      have ihr := ih {s with commandQueue :=
          [{c1 with message := appendLine c1.message x}, c2]}
        {c1 with message := appendLine c1.message x} c2 rfl hgs hg1 hg2 hcb hd
      constructor
      · intro i p hmem
        rcases List.mem_append.1 hmem with hin | hin
        · exfalso
          rcases Bool.eq_false_or_eq_true c1.hasStream with hcs | hcs <;>
            simp [hcs] at hin
        · exact ihr.1 i p hin
      · rintro ⟨p, hp⟩
        rcases List.mem_append.1 hp with hin | hin
        · exfalso
          rcases Bool.eq_false_or_eq_true c1.hasStream with hcs | hcs <;>
            simp [hcs] at hin
        · obtain ⟨q, hq2⟩ := ihr.2 ⟨p, hin⟩
          exact ⟨q, List.mem_append.2 (Or.inr hq2)⟩
    · have heq : processLines s (x :: xs) =
          ((processLines {s with commandQueue := [c2]} xs).1,
           ((if c1.hasStream = true then [Event.cmdStream c1.id x] else []) ++
            (if (c1.hasCallback && !c1.discard) = true then
              [Event.complete c1.id x] else [])) ++
           (processLines {s with commandQueue := [c2]} xs).2) := by
        rw [hcons, h3]
      rw [heq]
      dsimp only
      have hone : (if (c1.hasCallback && !c1.discard) = true then
          [Event.complete c1.id x] else []) = [Event.complete c1.id x] := by
        rw [hcb, hd]; rfl
      constructor
      · intro i p hmem
        rcases List.mem_append.1 hmem with hin | hin
        · rcases List.mem_append.1 hin with hin2 | hin2
          · exfalso
            rcases Bool.eq_false_or_eq_true c1.hasStream with hcs | hcs <;>
              simp [hcs] at hin2
          · rw [hone] at hin2
            simp at hin2
            rw [hin2.2]
            exact hb
        · exact (c6_single_trace xs {s with commandQueue := [c2]} c2 rfl hgs
            hg2 i p hin).2
      · intro _
        refine ⟨x, ?_⟩
        apply List.mem_append.2
        left
        apply List.mem_append.2
        right
        rw [hone]
        exact List.mem_singleton.2 rfl

/-! ### C4 and C6: go-command scenarios -/

/-- C4: for a queued `go` command (text not `bench`), delivering `info` lines
followed by a `bestmove` line invokes the command's stream callback once per
attributed line — each `info` line and the `bestmove` line — and fires the
completion callback exactly once, with payload equal to the single `bestmove`
line: the accumulated `info` lines are replaced by that line before the
callback runs.  The command is removed from the queue. -/
theorem c4_go_stream_per_line_single_completion (s : EngineState) (c : Command)
    (infos : List String) (b : String)
    (hq : s.commandQueue = [c]) (hgs : s.hasGlobalStream = false)
    (hg : getFirstWord c.cmd = "go") (hcb : c.hasCallback = true)
    (hcs : c.hasStream = true) (hcd : c.discard = false)
    (hinfos : ∀ l ∈ infos, getFirstWord l = "info" ∧
      strStartsWith l "No such option" = false ∧ strStartsWith l "id " = false ∧
      strStartsWith l "Stockfish" = false)
    (hbw : getFirstWord b = "bestmove")
    (hbf1 : strStartsWith b "No such option" = false)
    (hbf2 : strStartsWith b "id " = false)
    (hbf3 : strStartsWith b "Stockfish" = false) :
    (processLines s (infos ++ [b])).2 =
      (infos.map (fun l => Event.cmdStream c.id l)) ++
        [Event.cmdStream c.id b, Event.complete c.id b] ∧
    (processLines s (infos ++ [b])).1.commandQueue = [] :=
  c4_aux b hbw hbf1 hbf2 hbf3 infos hinfos s c hq hgs hg hcb hcs hcd

/-- Witness for C4: two `info` lines then `bestmove e2e4` on a queued
`go depth 10` command. -/
theorem c4_witness :
    (processLines demoGoState
        ["info depth 1", "info depth 2", "bestmove e2e4"]).2 =
      [Event.cmdStream 0 "info depth 1", Event.cmdStream 0 "info depth 2",
       Event.cmdStream 0 "bestmove e2e4", Event.complete 0 "bestmove e2e4"] ∧
    (processLines demoGoState
        ["info depth 1", "info depth 2", "bestmove e2e4"]).1.commandQueue = [] := by
  have h := c4_go_stream_per_line_single_completion demoGoState
    ⟨"go depth 10", true, true, "", false, 0⟩
    ["info depth 1", "info depth 2"] "bestmove e2e4" rfl rfl (by decide) rfl rfl rfl
    (by decide) (by decide) (by decide) (by decide) (by decide)
  exact ⟨h.1, h.2⟩

/-- Two queued `go` commands used by the C6 scenario. -/
def c6GoCmd1 : Command := ⟨"go depth 10", true, true, "", false, 1⟩

/-- The second queued `go` command of the C6 scenario. -/
def c6GoCmd2 : Command := ⟨"go depth 12", true, false, "", false, 2⟩

/-- The engine state with both C6 commands queued. -/
def c6State : EngineState := { initState with commandQueue := [c6GoCmd1, c6GoCmd2] }

/-- C6: with two `go`-family commands queued concurrently, every line of the
`go` family (`info`/`bestmove` leading token) is attributed to the earliest
still-queued command of the family — index 0, FIFO within the family — and
the second command's completion callback never fires before the first
command's: any trace containing a completion for the second command also
contains one for the first (instantiating the trace-decomposition conjunct
at each prefix of the delivery sequence places the first command's
completion strictly earlier), and every completion payload is that command's
own `bestmove` line. -/
theorem c6_fifo_within_family (s : EngineState) (c1 c2 : Command)
    (lines : List String)
    (hq : s.commandQueue = [c1, c2]) (hgs : s.hasGlobalStream = false)
    (hg1 : getFirstWord c1.cmd = "go") (hg2 : getFirstWord c2.cmd = "go")
    (hcb : c1.hasCallback = true) (hd : c1.discard = false) :
    (∀ l, classifyFamily l = "go" → determineQueueIndex s l = 0) ∧
    (∀ pre suf, lines = pre ++ suf →
      (processLines s lines).2 =
        (processLines s pre).2 ++ (processLines (processLines s pre).1 suf).2) ∧
    (∀ i p, Event.complete i p ∈ (processLines s lines).2 →
      strStartsWith p "bestmove" = true) ∧
    ((∃ p, Event.complete c2.id p ∈ (processLines s lines).2) →
      ∃ q, Event.complete c1.id q ∈ (processLines s lines).2) := by
  have hpt := c6_pair_trace lines s c1 c2 hq hgs hg1 hg2 hcb hd
  refine ⟨?_, ?_, hpt.1, hpt.2⟩
  · intro l hfam
    have hbench : c1.cmd ≠ "bench" := fun h => by
      rw [h] at hg1; exact absurd hg1 (by decide)
    have hperft : c1.cmd ≠ "perft" := fun h => by
      rw [h] at hg1; exact absurd hg1 (by decide)
    have hm : matchesFamily (classifyFamily l) c1 = true := by
      rw [hfam]; simp [matchesFamily, hg1]
    simp [determineQueueIndex, hq, hbench, hperft, List.findIdx?_cons, hm]
  · intro pre suf hls
    rw [hls, processLines_append]

/-- Witness for C6: two queued `go` commands, an `info` line, then the two
`bestmove` lines; family-`go` lines resolve to index 0, and the completion
payload of the second command is a `bestmove` line. -/
theorem c6_witness :
    determineQueueIndex c6State "info depth 1" = 0 ∧
    strStartsWith "bestmove d2d4" "bestmove" = true := by
  have h := c6_fifo_within_family c6State c6GoCmd1 c6GoCmd2
    ["info depth 1", "bestmove e2e4", "bestmove d2d4"] rfl rfl (by decide) (by decide)
    rfl rfl
  exact ⟨h.1 "info depth 1" (by decide), h.2.2.1 2 "bestmove d2d4" (by decide)⟩

end ChessUtils
